import Mathlib

/-!
Shallow embedding of `holopy/inference/noise_model.py` (classes `NoiseModel`
and `AlphaModel`).  Numeric values are taken in an arbitrary linear ordered
field `K` (instantiated with `ℚ` in concrete witnesses); the special float
values produced by the numpy arithmetic of the source (`-inf`, `inf`, `nan`)
are represented explicitly by the type `RE K` of extended numbers, with
IEEE-style total operations.  External collaborators (the scattering solver
`calc_field`/`calc_holo`, `BaseModel.get_par`, `_optics_scatterer`,
`make_subset_data`, `dict_to_array`) are passed in as explicit function
arguments, mirroring the dynamic calls of the Python code.
-/

/-- A Python value appearing as a parameter value: a number or a string
(strings arise because iterating a Python dict yields its keys). -/
inductive Val (K : Type) where
  | num (x : K)
  | str (s : String)
deriving DecidableEq

/-- Extended numbers: the values float arithmetic can produce in the source.
`fin x` is an ordinary (finite) number. -/
inductive RE (K : Type) where
  | nan
  | neginf
  | posinf
  | fin (x : K)
deriving DecidableEq

namespace RE

variable {K : Type} [LinearOrderedField K]

/-- IEEE-style negation. -/
def neg : RE K → RE K
  | nan => nan
  | neginf => posinf
  | posinf => neginf
  | fin x => fin (-x)

/-- IEEE-style addition: `nan` absorbs, `-inf + inf = nan`. -/
def add : RE K → RE K → RE K
  | nan, _ => nan
  | _, nan => nan
  | neginf, posinf => nan
  | posinf, neginf => nan
  | neginf, _ => neginf
  | _, neginf => neginf
  | posinf, _ => posinf
  | _, posinf => posinf
  | fin a, fin b => fin (a + b)

/-- Subtraction, as in float arithmetic: `a - b = a + (-b)`. -/
def sub (a b : RE K) : RE K := add a (neg b)

/-- IEEE-style multiplication: `0 * inf = nan`. -/
def mul : RE K → RE K → RE K
  | nan, _ => nan
  | _, nan => nan
  | posinf, posinf => posinf
  | posinf, neginf => neginf
  | neginf, posinf => neginf
  | neginf, neginf => posinf
  | posinf, fin b => if 0 < b then posinf else if b < 0 then neginf else nan
  | fin a, posinf => if 0 < a then posinf else if a < 0 then neginf else nan
  | neginf, fin b => if 0 < b then neginf else if b < 0 then posinf else nan
  | fin a, neginf => if 0 < a then neginf else if a < 0 then posinf else nan
  | fin a, fin b => fin (a * b)

/-- IEEE-style division: `x / 0` is a signed infinity (`nan` for `0/0`),
`inf / inf = nan`, division by an infinity gives `0`. -/
def div : RE K → RE K → RE K
  | nan, _ => nan
  | _, nan => nan
  | posinf, posinf => nan
  | posinf, neginf => nan
  | neginf, posinf => nan
  | neginf, neginf => nan
  | posinf, fin b => if 0 ≤ b then posinf else neginf
  | neginf, fin b => if 0 ≤ b then neginf else posinf
  | fin _, posinf => fin 0
  | fin _, neginf => fin 0
  | fin a, fin b =>
      if b = 0 then (if a = 0 then nan else if 0 < a then posinf else neginf)
      else fin (a / b)

/-- Python `sum(list)`: a left fold of `add` starting from `0`. -/
def sumL (l : List (RE K)) : RE K := l.foldl add (fin 0)

end RE

/-- An inference parameter: a name and a log prior density `lnprob`.
External collaborator contract (`Parameter` in the spec). -/
structure Param (K : Type) where
  name : String
  lnprob : Val K → RE K

/-- A feasibility constraint: a boolean predicate over a materialized
scatterer.  External collaborator contract (`Constraint` in the spec). -/
structure ScatConstraint (S : Type) where
  check : S → Bool

/-- A scatterer template: `make_from` builds a concrete scatterer from a
name-to-value mapping.  External collaborator contract. -/
structure ScattererTemplate (K S : Type) where
  make_from : List (String × Val K) → S

/-- The state a `NoiseModel` instance carries after construction: the
scatterer template, the ordered registered parameter list (which contains
`noise_sd`, registered by `__init__`), the constraint list and the theory
selector. -/
structure NoiseModel (K S : Type) where
  scatterer : ScattererTemplate K S
  parameters : List (Param K)
  constraints : List (ScatConstraint S)
  theory : String

/-- The two accepted forms of `par_vals`: a name-keyed dict (an association
list, in insertion order) or a positional sequence. -/
inductive ParVals (K : Type) where
  | dict (d : List (String × Val K))
  | pos (vs : List (Val K))

/-- Dict lookup `d[k]`, total with a junk default (the Python code would
raise `KeyError`; every theorem using this has the key present). -/
def lookupD {K : Type} [LinearOrderedField K]
    (d : List (String × Val K)) (k : String) : Val K :=
  (List.lookup k d).getD (Val.num 0)

namespace NoiseModel

variable {K S : Type} [LinearOrderedField K]

/-- `NoiseModel._pack(vals)`: `{par.name: val for par, val in
zip(self.parameters, vals)}`.  Iterating a Python dict yields its keys, so
a dict argument is zipped against its key strings. -/
def _pack (m : NoiseModel K S) (pv : ParVals K) : List (String × Val K) :=
  match pv with
  | .pos vs => (m.parameters.zip vs).map (fun pr => (pr.1.name, pr.2))
  | .dict d =>
      (m.parameters.zip (d.map (fun kv => Val.str kv.1))).map
        (fun pr => (pr.1.name, pr.2))

/-- `NoiseModel.lnprior(par_vals)`: the constraint loop returns `-inf` at
the first failing check (rendered as `List.all` of the checks); otherwise
the sum of each parameter's `lnprob`, keyed by name for a dict input and by
position for a sequence input. -/
def lnprior (m : NoiseModel K S) (pv : ParVals K) : RE K :=
  if m.constraints.all
      (fun c => c.check (m.scatterer.make_from (m._pack pv))) then
    match pv with
    | .dict d =>
        RE.sumL (m.parameters.map (fun p => p.lnprob (lookupD d p.name)))
    | .pos vs =>
        RE.sumL ((m.parameters.zip vs).map (fun pr => pr.1.lnprob pr.2))
  else
    RE.neginf

end NoiseModel

/-- `np.mean` over a flat array (total, with junk `0/0` on the empty array,
which the source never hits in the verified statements). -/
def meanK {K : Type} [LinearOrderedField K] (l : List K) : K :=
  l.sum / (l.length : K)

/-- numpy broadcasting of the noise array against data of size `n`: a size-1
array is replicated, otherwise the array is used elementwise. -/
def bcast {K : Type} [LinearOrderedField K] (sd : List K) (n : Nat) : List K :=
  if sd.length = 1 then List.replicate n (sd.headD 0) else sd

/-- The value returned by `_fields` / `_forward`: either the computed
field/hologram array or the scalar `-np.inf` sentinel. -/
inductive FwdRes (K : Type) where
  | neginfF
  | arr (xs : List K)
deriving DecidableEq

/-- The recoverable scattering-failure conditions of the solver
(`holopy.scattering.errors`). -/
inductive ScatteringError where
  | multisphereFailure
  | invalidScatterer
deriving DecidableEq

/-- The `try/except (MultisphereFailure, InvalidScatterer)` wrapper around a
solver call: an `ok` result is returned as the array, a declared failure is
converted to the `-np.inf` sentinel. -/
def FwdRes.ofExcept {K : Type} :
    Except ScatteringError (List K) → FwdRes K
  | .ok xs => .arr xs
  | .error _ => .neginfF

/-- The elementwise view of a forward result against data of size `n`: the
scalar `-np.inf` sentinel broadcasts to `n` copies of `-inf`. -/
def fwdElems {K : Type} (f : FwdRes K) (n : Nat) : List (RE K) :=
  match f with
  | .neginfF => List.replicate n RE.neginf
  | .arr xs => xs.map RE.fin

/-- The transcendental functions the likelihood formula uses (`np.log` and
`np.pi`), kept abstract over the field `K`. -/
structure MathFns (K : Type) where
  log : K → K
  pi : K

namespace NoiseModel

variable {K S : Type} [LinearOrderedField K]

/-- `NoiseModel._lnlike(pars, data)`.  `resolveNoise` stands for
`dict_to_array(data, self.get_par('noise_sd', pars, data))` (external
resolution of the noise parameter), `fwdF` for the dynamically dispatched
`self._forward(pars, data)`.  The returned value is
`-N/2*log(2*pi) - N*mean(log(noise_sd)) - sum((forward-data)**2/(2*noise_sd**2))`
with `N = data.size`, computed in `RE K`. -/
def _lnlike (mf : MathFns K)
    (resolveNoise : List (String × Val K) → List K → List K)
    (fwdF : List (String × Val K) → List K → FwdRes K)
    (pars : List (String × Val K)) (data : List K) : RE K :=
  let noise_sd := resolveNoise pars data
  let forward := fwdF pars data
  let N : K := (data.length : K)
  let mainTerm : K :=
    -N / 2 * mf.log (2 * mf.pi) - N * meanK (noise_sd.map mf.log)
  let sdB := bcast noise_sd data.length
  let terms :=
    ((fwdElems forward data.length).zip (data.zip sdB)).map
      (fun t =>
        RE.div
          (RE.mul (RE.sub t.1 (RE.fin t.2.1)) (RE.sub t.1 (RE.fin t.2.1)))
          (RE.fin (2 * t.2.2 ^ 2)))
  RE.sub (RE.fin mainTerm) (RE.sumL terms)

/-- `NoiseModel.lnlike(par_vals, data)`: packs and delegates to `_lnlike`. -/
def lnlike (mf : MathFns K)
    (resolveNoise : List (String × Val K) → List K → List K)
    (fwdF : List (String × Val K) → List K → FwdRes K)
    (m : NoiseModel K S) (pv : ParVals K) (data : List K) : RE K :=
  _lnlike mf resolveNoise fwdF (m._pack pv) data

/-- `NoiseModel.lnposterior(par_vals, data, pixels=None)`.  `subsetFn`
stands for the external `make_subset_data`.  The prior is computed first;
if it equals `-inf` it is returned at once, otherwise the data is subset
when `pixels` is given and `lnprior + lnlike` is returned. -/
def lnposterior {Px : Type} (mf : MathFns K)
    (resolveNoise : List (String × Val K) → List K → List K)
    (fwdF : List (String × Val K) → List K → FwdRes K)
    (subsetFn : List K → Px → List K)
    (m : NoiseModel K S) (pv : ParVals K) (data : List K)
    (pixels : Option Px) : RE K :=
  let lp := m.lnprior pv
  if lp = RE.neginf then lp
  else
    match pixels with
    | some px =>
        RE.add lp (m.lnlike mf resolveNoise fwdF pv (subsetFn data px))
    | none => RE.add lp (m.lnlike mf resolveNoise fwdF pv data)

/-- `NoiseModel._fields(pars, schema)`: resolves optics and scatterer via
the external `self._optics_scatterer` and calls `calc_field`, converting a
declared scattering failure to the `-np.inf` sentinel. -/
def _fields
    (calcField :
      List K → S → String → List (String × Val K) →
        Except ScatteringError (List K))
    (opticsScatterer :
      List (String × Val K) → List K → List (String × Val K) × S)
    (m : NoiseModel K S) (pars : List (String × Val K))
    (schema : List K) : FwdRes K :=
  let os := opticsScatterer pars schema
  FwdRes.ofExcept (calcField schema os.2 m.theory os.1)

end NoiseModel

/-- An `AlphaModel` instance: a `NoiseModel` whose parameter list also
contains `alpha`, registered by `AlphaModel.__init__`. -/
structure AlphaModel (K S : Type) extends NoiseModel K S

namespace AlphaModel

variable {K S : Type} [LinearOrderedField K]

/-- `AlphaModel._forward(pars, schema, alpha=None)`: the explicit `alpha`
argument wins when given, otherwise `self.get_par('alpha', pars)` (kept
abstract as `getParAlpha`, external `BaseModel` code); then optics and
scatterer are resolved and `calc_holo` is invoked with the resolved alpha
as the `scaling` factor, converting a declared scattering failure to the
`-np.inf` sentinel. -/
def _forward
    (calcHolo :
      List K → S → String → Val K → List (String × Val K) →
        Except ScatteringError (List K))
    (opticsScatterer :
      List (String × Val K) → List K → List (String × Val K) × S)
    (getParAlpha : List (String × Val K) → Val K)
    (am : AlphaModel K S) (pars : List (String × Val K))
    (schema : List K) (alpha : Option (Val K)) : FwdRes K :=
  let a := match alpha with
    | some x => x
    | none => getParAlpha pars
  let os := opticsScatterer pars schema
  FwdRes.ofExcept (calcHolo schema os.2 am.theory a os.1)

end AlphaModel

/-- Modelled from the spec: Python evaluates the `constraints=[]` default
argument once, when the `def` line is executed, producing a single list
object, and `BaseModel.__init__` (`holopy/fitting/model.py`, not under
`src/`) binds the received sequence to the instance without copying; so a
store of list objects is threaded through construction, and instances built
without an explicit argument all receive the one default list reference. -/
structure PyListStore (S : Type) where
  nextRef : Nat
  heap : Nat → List (ScatConstraint S)

/-- The reference of the single list object created for the `constraints=[]`
default when the `def __init__` line is executed. -/
def defaultConstraintsRef : Nat := 0

/-- The store right after the module is loaded: only the default-argument
list object (empty) exists. -/
def initialStore (S : Type) : PyListStore S :=
  { nextRef := 1, heap := fun _ => [] }

/-- Modelled from the spec: constructing a model with `constraints`
defaulted binds `self.constraints` to the default list object; passing a
list explicitly binds the caller's reference.  No copy is made. -/
def constructConstraintsRef {S : Type} (st : PyListStore S)
    (explicitArg : Option Nat) : Nat × PyListStore S :=
  match explicitArg with
  | some r => (r, st)
  | none => (defaultConstraintsRef, st)

/-- In-place `list.append` on the list object behind reference `r`. -/
def appendConstraint {S : Type} (st : PyListStore S) (r : Nat)
    (c : ScatConstraint S) : PyListStore S :=
  { st with heap := fun i => if i = r then st.heap r ++ [c] else st.heap i }

/-- The string key `"alpha"`. -/
def alphaName : String := "alpha"

/-- Concrete transcendental functions for `ℚ` witnesses. -/
def wMF : MathFns ℚ := { log := fun x => x, pi := 1 }

/-- Witness scatterer template over `Bool` scatterers. -/
def wTemplate : ScattererTemplate ℚ Bool := { make_from := fun _ => false }

/-- A constraint that fails on the scatterer `wTemplate` materializes. -/
def wFailCon : ScatConstraint Bool := { check := fun s => s }

/-- A witness parameter whose prior is the identity on numbers. -/
def wParamA : Param ℚ :=
  { name := "a",
    lnprob := fun v => match v with
      | .num x => RE.fin x
      | .str _ => RE.fin 0 }

/-- A witness parameter whose prior doubles numbers. -/
def wParamB : Param ℚ :=
  { name := "b",
    lnprob := fun v => match v with
      | .num x => RE.fin (2 * x)
      | .str _ => RE.fin 0 }

/-- A witness parameter whose prior is `-inf` everywhere. -/
def wParamBot : Param ℚ :=
  { name := "c", lnprob := fun _ => RE.neginf }

/-- Witness model with one failing constraint. -/
def wModelFail : NoiseModel ℚ Bool :=
  { scatterer := wTemplate, parameters := [wParamA],
    constraints := [wFailCon], theory := "auto" }

/-- Witness model with no constraints and two parameters. -/
def wModelOK : NoiseModel ℚ Bool :=
  { scatterer := wTemplate, parameters := [wParamA, wParamB],
    constraints := [], theory := "auto" }

/-- Witness model whose parameter priors force `lnprior = -inf`. -/
def wModelBot : NoiseModel ℚ Bool :=
  { scatterer := wTemplate, parameters := [wParamBot],
    constraints := [], theory := "auto" }

/-- Witness `AlphaModel` wrapping `wModelOK`. -/
def wAM : AlphaModel ℚ Bool := { toNoiseModel := wModelOK }

/-- A solver stub that always signals `MultisphereFailure` (for
`calc_holo`). -/
def wCalcHoloErr :
    List ℚ → Bool → String → Val ℚ → List (String × Val ℚ) →
      Except ScatteringError (List ℚ) :=
  fun _ _ _ _ _ => .error .multisphereFailure

/-- A solver stub that always signals `InvalidScatterer` (for
`calc_field`). -/
def wCalcFieldErr :
    List ℚ → Bool → String → List (String × Val ℚ) →
      Except ScatteringError (List ℚ) :=
  fun _ _ _ _ => .error .invalidScatterer

/-- A `calc_holo` stub that echoes the schema as the hologram. -/
def wCalcHoloEcho :
    List ℚ → Bool → String → Val ℚ → List (String × Val ℚ) →
      Except ScatteringError (List ℚ) :=
  fun schema _ _ _ _ => .ok schema

/-- Witness optics/scatterer resolution. -/
def wOS : List (String × Val ℚ) → List ℚ → List (String × Val ℚ) × Bool :=
  fun _ _ => ([], false)

/-- Witness `get_par('alpha', pars)` resolver. -/
def wGP : List (String × Val ℚ) → Val ℚ := fun _ => Val.num 1

/-- A second, different alpha resolver (to exhibit independence). -/
def wGP2 : List (String × Val ℚ) → Val ℚ := fun _ => Val.num 7

/-- Witness noise resolution: constant noise sd `1`. -/
def wRN1 : List (String × Val ℚ) → List ℚ → List ℚ := fun _ _ => [1]

/-- Witness forward model that reproduces the data exactly. -/
def wFwdData : List (String × Val ℚ) → List ℚ → FwdRes ℚ :=
  fun _ d => FwdRes.arr d

/-- Witness forward model built from the failing `calc_holo` stub, as
`_lnlike` invokes it (`self._forward(pars, data)`). -/
def wFwdErr : List (String × Val ℚ) → List ℚ → FwdRes ℚ :=
  fun p d => AlphaModel._forward wCalcHoloErr wOS wGP wAM p d none

/-- Witness `make_subset_data` over `Unit` pixel sets. -/
def wSubset : List ℚ → Unit → List ℚ := fun d _ => d.take 1

/-- C1: for every parameter-value input such that at least one registered
constraint's check fails on the scatterer materialized from the packed
values, `NoiseModel.lnprior` returns exactly `-inf`; no parameter's
`lnprob` enters the result (the conclusion is `-inf` for every choice of
the parameters' priors). -/
theorem C1_lnprior_neginf_of_failed_constraint
    {K S : Type} [LinearOrderedField K]
    (m : NoiseModel K S) (pv : ParVals K)
    (h : ∃ c ∈ m.constraints,
        c.check (m.scatterer.make_from (m._pack pv)) = false) :
    m.lnprior pv = RE.neginf := by
  obtain ⟨c, hc, hf⟩ := h
  have hall : m.constraints.all
      (fun c => c.check (m.scatterer.make_from (m._pack pv))) = false := by
    cases hb : m.constraints.all
        (fun c => c.check (m.scatterer.make_from (m._pack pv))) with
    | false => rfl
    | true => exact absurd (List.all_eq_true.mp hb c hc) (by simp [hf])
  simp [NoiseModel.lnprior, hall]

/-- Witness for C1 at a concrete model and input. -/
theorem C1_lnprior_neginf_of_failed_constraint_witness :
    wModelFail.lnprior (ParVals.pos [Val.num 3]) = RE.neginf :=
  C1_lnprior_neginf_of_failed_constraint wModelFail (ParVals.pos [Val.num 3])
    ⟨wFailCon, by simp [wModelFail], rfl⟩

/-- C2: whenever `lnprior` is `-inf`, `lnposterior` returns `-inf`, and the
result does not depend on the likelihood machinery (math functions, noise
resolution, forward solver, subsetting): the solver is never invoked. -/
theorem C2_lnposterior_shortcircuit
    {K S Px : Type} [LinearOrderedField K]
    (m : NoiseModel K S) (pv : ParVals K) (data : List K)
    (pixels : Option Px) (mf mf2 : MathFns K)
    (rn rn2 : List (String × Val K) → List K → List K)
    (fw fw2 : List (String × Val K) → List K → FwdRes K)
    (sf sf2 : List K → Px → List K)
    (h : m.lnprior pv = RE.neginf) :
    m.lnposterior mf rn fw sf pv data pixels = RE.neginf ∧
    m.lnposterior mf rn fw sf pv data pixels =
      m.lnposterior mf2 rn2 fw2 sf2 pv data pixels := by
  constructor <;> simp [NoiseModel.lnposterior, h]

/-- Witness for C2 at a concrete model whose prior is `-inf`. -/
theorem C2_lnposterior_shortcircuit_witness :
    NoiseModel.lnposterior wMF wRN1 wFwdData wSubset wModelBot
        (ParVals.pos [Val.num 1]) [2] (some ()) = RE.neginf ∧
    NoiseModel.lnposterior wMF wRN1 wFwdData wSubset wModelBot
        (ParVals.pos [Val.num 1]) [2] (some ()) =
      NoiseModel.lnposterior wMF wRN1 wFwdErr wSubset wModelBot
        (ParVals.pos [Val.num 1]) [2] (some ()) :=
  C2_lnposterior_shortcircuit wModelBot (ParVals.pos [Val.num 1]) [2]
    (some ()) wMF wMF wRN1 wRN1 wFwdData wFwdErr wSubset wSubset (by decide)

/-- C5: with `pixels` not supplied and a prior different from `-inf`,
`lnposterior` is exactly `lnprior + lnlike` on the full data. -/
theorem C5_lnposterior_sum
    {K S Px : Type} [LinearOrderedField K]
    (m : NoiseModel K S) (pv : ParVals K) (data : List K)
    (mf : MathFns K)
    (rn : List (String × Val K) → List K → List K)
    (fw : List (String × Val K) → List K → FwdRes K)
    (sf : List K → Px → List K)
    (h : m.lnprior pv ≠ RE.neginf) :
    m.lnposterior mf rn fw sf pv data none =
      RE.add (m.lnprior pv) (m.lnlike mf rn fw pv data) := by
  simp [NoiseModel.lnposterior, h]

/-- Witness for C5 at a concrete model with a finite prior. -/
theorem C5_lnposterior_sum_witness :
    NoiseModel.lnposterior wMF wRN1 wFwdData wSubset wModelOK
        (ParVals.pos [Val.num 2, Val.num 3]) [5] (none : Option Unit) =
      RE.add (wModelOK.lnprior (ParVals.pos [Val.num 2, Val.num 3]))
        (NoiseModel.lnlike wMF wRN1 wFwdData wModelOK
          (ParVals.pos [Val.num 2, Val.num 3]) [5]) :=
  C5_lnposterior_sum wModelOK (ParVals.pos [Val.num 2, Val.num 3]) [5]
    wMF wRN1 wFwdData wSubset (by decide)

/-- C7: `AlphaModel._forward` with `alpha` explicitly passed invokes
`calc_holo` with exactly that alpha as the scaling factor, and the result
is independent of the `get_par('alpha', pars)` resolver — so any `alpha`
entry present in `pars` is overridden. -/
theorem C7_forward_alpha_override
    {K S : Type} [LinearOrderedField K]
    (calcHolo :
      List K → S → String → Val K → List (String × Val K) →
        Except ScatteringError (List K))
    (os : List (String × Val K) → List K → List (String × Val K) × S)
    (gp gp2 : List (String × Val K) → Val K)
    (am : AlphaModel K S) (pars : List (String × Val K))
    (schema : List K) (a v : Val K)
    (_hin : List.lookup alphaName pars = some v) :
    am._forward calcHolo os gp pars schema (some a) =
      FwdRes.ofExcept
        (calcHolo schema (os pars schema).2 am.theory a
          (os pars schema).1) ∧
    am._forward calcHolo os gp pars schema (some a) =
      am._forward calcHolo os gp2 pars schema (some a) :=
  ⟨rfl, rfl⟩

/-- Witness for C7 at a concrete `pars` carrying an `alpha` entry. -/
theorem C7_forward_alpha_override_witness :
    AlphaModel._forward wCalcHoloEcho wOS wGP wAM [(alphaName, Val.num 5)]
        [9] (some (Val.num 2)) =
      FwdRes.ofExcept
        (wCalcHoloEcho [9] (wOS [(alphaName, Val.num 5)] [9]).2 wAM.theory
          (Val.num 2) (wOS [(alphaName, Val.num 5)] [9]).1) ∧
    AlphaModel._forward wCalcHoloEcho wOS wGP wAM [(alphaName, Val.num 5)]
        [9] (some (Val.num 2)) =
      AlphaModel._forward wCalcHoloEcho wOS wGP2 wAM [(alphaName, Val.num 5)]
        [9] (some (Val.num 2)) :=
  C7_forward_alpha_override wCalcHoloEcho wOS wGP wGP2 wAM
    [(alphaName, Val.num 5)] [9] (Val.num 2) (Val.num 5) (by decide)

/-- C8: with `pixels` supplied and a prior different from `-inf`,
`lnposterior` computes the likelihood exactly on
`make_subset_data(data, pixels)`, equivalently on the subset data with no
further subsetting. -/
theorem C8_lnposterior_subset
    {K S Px : Type} [LinearOrderedField K]
    (m : NoiseModel K S) (pv : ParVals K) (data : List K) (px : Px)
    (mf : MathFns K)
    (rn : List (String × Val K) → List K → List K)
    (fw : List (String × Val K) → List K → FwdRes K)
    (sf : List K → Px → List K)
    (h : m.lnprior pv ≠ RE.neginf) :
    m.lnposterior mf rn fw sf pv data (some px) =
      RE.add (m.lnprior pv) (m.lnlike mf rn fw pv (sf data px)) ∧
    m.lnposterior mf rn fw sf pv data (some px) =
      m.lnposterior mf rn fw sf pv (sf data px) none := by
  constructor <;> simp [NoiseModel.lnposterior, h]

/-- Witness for C8 at a concrete model, data and pixel set. -/
theorem C8_lnposterior_subset_witness :
    NoiseModel.lnposterior wMF wRN1 wFwdData wSubset wModelOK
        (ParVals.pos [Val.num 2, Val.num 3]) [5, 6] (some ()) =
      RE.add (wModelOK.lnprior (ParVals.pos [Val.num 2, Val.num 3]))
        (NoiseModel.lnlike wMF wRN1 wFwdData wModelOK
          (ParVals.pos [Val.num 2, Val.num 3]) (wSubset [5, 6] ())) ∧
    NoiseModel.lnposterior wMF wRN1 wFwdData wSubset wModelOK
        (ParVals.pos [Val.num 2, Val.num 3]) [5, 6] (some ()) =
      NoiseModel.lnposterior wMF wRN1 wFwdData wSubset wModelOK
        (ParVals.pos [Val.num 2, Val.num 3]) (wSubset [5, 6] ()) none :=
  C8_lnposterior_subset wModelOK (ParVals.pos [Val.num 2, Val.num 3])
    [5, 6] () wMF wRN1 wFwdData wSubset (by decide)

/-- Looking up a key at the head of an association list. -/
theorem lookupD_cons_self {K : Type} [LinearOrderedField K]
    (k : String) (v : Val K) (d : List (String × Val K)) :
    lookupD ((k, v) :: d) k = v := by
  simp [lookupD, List.lookup]

/-- Looking up a key different from the head skips the head. -/
theorem lookupD_cons_ne {K : Type} [LinearOrderedField K]
    (k n : String) (v : Val K) (d : List (String × Val K)) (h : k ≠ n) :
    lookupD ((n, v) :: d) k = lookupD d k := by
  simp [lookupD, List.lookup, beq_eq_false_iff_ne.mpr h]

/-- Summing `lnprob` by name lookup over the dict that pairs the parameter
names with a value list recovers the positional zip, when the names are
distinct and the lengths agree. -/
theorem map_lnprob_lookup_zip {K : Type} [LinearOrderedField K] :
    ∀ (ps : List (Param K)) (vs : List (Val K)),
      vs.length = ps.length → (ps.map Param.name).Nodup →
      ps.map
          (fun p => p.lnprob (lookupD ((ps.map Param.name).zip vs) p.name)) =
        (ps.zip vs).map (fun pr => pr.1.lnprob pr.2) := by
  intro ps
  induction ps with
  | nil => intro vs _ _; simp
  | cons p pt ih =>
      intro vs hlen hnd
      cases vs with
      | nil => simp at hlen
      | cons v vt =>
          simp only [List.map_cons, List.zip_cons_cons, lookupD_cons_self]
          obtain ⟨hnotin, hndt⟩ := List.nodup_cons.mp hnd
          refine congrArg₂ (· :: ·) rfl ?_
          have hstep :
              pt.map (fun q => q.lnprob
                  (lookupD ((p.name, v) :: (pt.map Param.name).zip vt)
                    q.name)) =
                pt.map (fun q => q.lnprob
                  (lookupD ((pt.map Param.name).zip vt) q.name)) := by
            refine List.map_congr_left ?_
            intro q hq
            rw [lookupD_cons_ne]
            intro heq
            exact hnotin (heq ▸ List.mem_map_of_mem Param.name hq)
          rw [hstep]
          exact ih vt (by simpa using hlen) hndt

/-- C3: with every registered constraint satisfied, `lnprior` is the sum of
each parameter's `lnprob` at the corresponding value, for the dict form and
the positional form alike, and the two forms agree when the dict pairs the
parameter names with the positional values (distinct names, equal
lengths). -/
theorem C3_lnprior_sum_both_forms
    {K S : Type} [LinearOrderedField K]
    (m : NoiseModel K S) (d : List (String × Val K)) (vs : List (Val K))
    (hok1 : ∀ c ∈ m.constraints,
        c.check (m.scatterer.make_from (m._pack (ParVals.dict d))) = true)
    (hok2 : ∀ c ∈ m.constraints,
        c.check (m.scatterer.make_from (m._pack (ParVals.pos vs))) = true)
    (hcorr : d = (m.parameters.map Param.name).zip vs)
    (hlen : vs.length = m.parameters.length)
    (hnd : (m.parameters.map Param.name).Nodup) :
    m.lnprior (ParVals.dict d) =
      RE.sumL (m.parameters.map (fun p => p.lnprob (lookupD d p.name))) ∧
    m.lnprior (ParVals.pos vs) =
      RE.sumL ((m.parameters.zip vs).map (fun pr => pr.1.lnprob pr.2)) ∧
    m.lnprior (ParVals.dict d) = m.lnprior (ParVals.pos vs) := by
  have hall1 : m.constraints.all
      (fun c =>
        c.check (m.scatterer.make_from (m._pack (ParVals.dict d)))) =
        true :=
    List.all_eq_true.mpr (fun c hc => hok1 c hc)
  have hall2 : m.constraints.all
      (fun c =>
        c.check (m.scatterer.make_from (m._pack (ParVals.pos vs)))) =
        true :=
    List.all_eq_true.mpr (fun c hc => hok2 c hc)
  refine ⟨by simp [NoiseModel.lnprior, hall1],
    by simp [NoiseModel.lnprior, hall2], ?_⟩
  have hmaps := map_lnprob_lookup_zip m.parameters vs hlen hnd
  simp only [NoiseModel.lnprior, hall1, hall2, if_true]
  rw [hcorr, hmaps]

/-- Witness for C3 at a concrete two-parameter model. -/
theorem C3_lnprior_sum_both_forms_witness :
    wModelOK.lnprior (ParVals.dict [("a", Val.num 2), ("b", Val.num 3)]) =
      RE.sumL (wModelOK.parameters.map
        (fun p => p.lnprob
          (lookupD [("a", Val.num 2), ("b", Val.num 3)] p.name))) ∧
    wModelOK.lnprior (ParVals.pos [Val.num 2, Val.num 3]) =
      RE.sumL ((wModelOK.parameters.zip [Val.num 2, Val.num 3]).map
        (fun pr => pr.1.lnprob pr.2)) ∧
    wModelOK.lnprior (ParVals.dict [("a", Val.num 2), ("b", Val.num 3)]) =
      wModelOK.lnprior (ParVals.pos [Val.num 2, Val.num 3]) :=
  C3_lnprior_sum_both_forms wModelOK
    [("a", Val.num 2), ("b", Val.num 3)] [Val.num 2, Val.num 3]
    (by intro c hc; simp [wModelOK] at hc)
    (by intro c hc; simp [wModelOK] at hc)
    (by decide) (by decide) (by decide)

/-- `zip` only consumes the first `l2.length` elements of its left list. -/
theorem zip_take_self {α β : Type} :
    ∀ (l : List α) (l2 : List β), l.zip l2 = (l.take l2.length).zip l2 := by
  intro l
  induction l with
  | nil => intro l2; simp
  | cons a t ih =>
      intro l2
      cases l2 with
      | nil => simp
      | cons b t2 => simp [List.zip_cons_cons, ih t2]

/-- C10: with no constraints registered and a positional value sequence
strictly shorter than the parameter list, `_pack` silently truncates to the
first `len(values)` parameters (in declaration order) and `lnprior` sums
`lnprob` over only those parameters; no error is raised. -/
theorem C10_pack_lnprior_truncate
    {K S : Type} [LinearOrderedField K]
    (m : NoiseModel K S) (vs : List (Val K))
    (hc : m.constraints = [])
    (_hlen : vs.length < m.parameters.length) :
    m._pack (ParVals.pos vs) =
      ((m.parameters.take vs.length).zip vs).map
        (fun pr => (pr.1.name, pr.2)) ∧
    (m._pack (ParVals.pos vs)).map Prod.fst =
      (m.parameters.take vs.length).map Param.name ∧
    m.lnprior (ParVals.pos vs) =
      RE.sumL (((m.parameters.take vs.length).zip vs).map
        (fun pr => pr.1.lnprob pr.2)) := by
  have hz := zip_take_self m.parameters vs
  have htk : (m.parameters.take vs.length).length ≤ vs.length := by
    simp [List.length_take]
  refine ⟨?_, ?_, ?_⟩
  · simp only [NoiseModel._pack]
    rw [hz]
  · simp only [NoiseModel._pack]
    rw [hz, List.map_map]
    have hcomp :
        (Prod.fst ∘ fun pr : Param K × Val K => (pr.1.name, pr.2)) =
          (Param.name ∘ Prod.fst) := rfl
    rw [hcomp, ← List.map_map, List.map_fst_zip _ _ htk]
  · simp only [NoiseModel.lnprior, hc, List.all_nil, if_true]
    rw [hz]

/-- Witness for C10 at a concrete model with two parameters and one value. -/
theorem C10_pack_lnprior_truncate_witness :
    wModelOK._pack (ParVals.pos [Val.num 4]) =
      ((wModelOK.parameters.take 1).zip [Val.num 4]).map
        (fun pr => (pr.1.name, pr.2)) ∧
    (wModelOK._pack (ParVals.pos [Val.num 4])).map Prod.fst =
      (wModelOK.parameters.take 1).map Param.name ∧
    wModelOK.lnprior (ParVals.pos [Val.num 4]) =
      RE.sumL (((wModelOK.parameters.take 1).zip [Val.num 4]).map
        (fun pr => pr.1.lnprob pr.2)) :=
  C10_pack_lnprior_truncate wModelOK [Val.num 4] rfl (by decide)

/-- Finite subtraction in `RE`. -/
theorem RE.sub_fin_fin {K : Type} [LinearOrderedField K] (a b : K) :
    RE.sub (RE.fin a) (RE.fin b) = RE.fin (a - b) := by
  simp [RE.sub, RE.add, RE.neg, sub_eq_add_neg]

/-- Finite multiplication in `RE`. -/
theorem RE.mul_fin_fin {K : Type} [LinearOrderedField K] (a b : K) :
    RE.mul (RE.fin a) (RE.fin b) = RE.fin (a * b) := by
  simp [RE.mul]

/-- Finite division in `RE` by a nonzero denominator. -/
theorem RE.div_fin_fin {K : Type} [LinearOrderedField K] (a b : K)
    (hb : b ≠ 0) : RE.div (RE.fin a) (RE.fin b) = RE.fin (a / b) := by
  simp [RE.div, hb]

/-- `-inf` minus a finite value is `-inf`. -/
theorem RE.sub_neginf_fin {K : Type} [LinearOrderedField K] (d : K) :
    RE.sub (RE.neginf : RE K) (RE.fin d) = RE.neginf := rfl

/-- `(-inf) * (-inf) = inf`. -/
theorem RE.mul_neginf_neginf {K : Type} [LinearOrderedField K] :
    RE.mul (RE.neginf : RE K) RE.neginf = RE.posinf := rfl

/-- `inf` divided by a nonnegative finite value is `inf`. -/
theorem RE.div_posinf_fin {K : Type} [LinearOrderedField K] (b : K)
    (hb : 0 ≤ b) : RE.div (RE.posinf : RE K) (RE.fin b) = RE.posinf := by
  simp [RE.div, hb]

/-- A finite value minus `inf` is `-inf`. -/
theorem RE.sub_fin_posinf {K : Type} [LinearOrderedField K] (a : K) :
    RE.sub (RE.fin a) RE.posinf = RE.neginf := rfl

/-- Folding `add` over zeros leaves a finite accumulator unchanged. -/
theorem RE.foldl_add_replicate_zero {K : Type} [LinearOrderedField K]
    (n : Nat) (a : K) :
    List.foldl RE.add (RE.fin a) (List.replicate n (RE.fin (0 : K))) =
      RE.fin a := by
  induction n generalizing a with
  | zero => rfl
  | succ n ih =>
      rw [List.replicate_succ, List.foldl_cons]
      have hone : RE.add (RE.fin a) (RE.fin (0 : K)) = RE.fin a := by
        simp [RE.add]
      rw [hone, ih]

/-- The float sum of `n` zeros is zero. -/
theorem RE.sumL_replicate_zero {K : Type} [LinearOrderedField K] (n : Nat) :
    RE.sumL (List.replicate n (RE.fin (0 : K))) = RE.fin 0 :=
  RE.foldl_add_replicate_zero n 0

/-- With the forward prediction equal to the data and a constant nonzero
noise sd, every residual term of the likelihood sum is zero. -/
theorem residual_terms_zero {K : Type} [LinearOrderedField K]
    (sd : K) (hsd : sd ≠ 0) :
    ∀ (data : List K),
      ((data.map RE.fin).zip
          (data.zip (List.replicate data.length sd))).map
        (fun t => RE.div
          (RE.mul (RE.sub t.1 (RE.fin t.2.1)) (RE.sub t.1 (RE.fin t.2.1)))
          (RE.fin (2 * t.2.2 ^ 2))) =
      List.replicate data.length (RE.fin 0) := by
  intro data
  induction data with
  | nil => simp
  | cons d t ih =>
      simp only [List.map_cons, List.length_cons, List.replicate_succ,
        List.zip_cons_cons]
      refine congrArg₂ (· :: ·) ?_ ih
      have h2 : (2 : K) * sd ^ 2 ≠ 0 := by positivity
      rw [RE.sub_fin_fin, RE.mul_fin_fin, RE.div_fin_fin _ _ h2]
      simp

/-- C6: `_lnlike` computes the Gaussian log-likelihood of the residual;
with zero residual (`forward == data`) and constant noise sd `sd > 0` it
equals exactly `-N/2*log(2*pi) - N*log(sd)` for `N = data.size`. -/
theorem C6_lnlike_gaussian_zero_residual
    {K : Type} [LinearOrderedField K]
    (mf : MathFns K)
    (rn : List (String × Val K) → List K → List K)
    (fw : List (String × Val K) → List K → FwdRes K)
    (pars : List (String × Val K)) (data : List K) (sd : K)
    (hsd : 0 < sd) (hrn : rn pars data = [sd])
    (hfw : fw pars data = FwdRes.arr data) :
    NoiseModel._lnlike mf rn fw pars data =
      RE.fin (-(data.length : K) / 2 * mf.log (2 * mf.pi)
        - (data.length : K) * mf.log sd) := by
  have hne : sd ≠ 0 := ne_of_gt hsd
  have hmean : meanK ([sd].map mf.log) = mf.log sd := by simp [meanK]
  have hbc : bcast [sd] data.length = List.replicate data.length sd := by
    simp [bcast]
  simp only [NoiseModel._lnlike, hrn, hfw, fwdElems, hbc, hmean]
  rw [residual_terms_zero sd hne data, RE.sumL_replicate_zero,
    RE.sub_fin_fin]
  simp

/-- Witness for C6 at concrete data of size two and noise sd one. -/
theorem C6_lnlike_gaussian_zero_residual_witness :
    NoiseModel._lnlike wMF wRN1 wFwdData [] [3, 4] =
      RE.fin (-(([3, 4] : List ℚ).length : ℚ) / 2 * wMF.log (2 * wMF.pi)
        - (([3, 4] : List ℚ).length : ℚ) * wMF.log 1) :=
  C6_lnlike_gaussian_zero_residual wMF wRN1 wFwdData [] [3, 4] 1
    (by norm_num) rfl rfl

/-- Folding `add` over a list of `inf` keeps an `inf` accumulator. -/
theorem RE.foldl_add_posinf {K : Type} [LinearOrderedField K] :
    ∀ (l : List (RE K)), (∀ x ∈ l, x = RE.posinf) →
      List.foldl RE.add RE.posinf l = RE.posinf := by
  intro l
  induction l with
  | nil => intro _; rfl
  | cons x t ih =>
      intro h
      rw [List.foldl_cons, h x (List.mem_cons_self x t)]
      have hstep : RE.add (RE.posinf : RE K) RE.posinf = RE.posinf := rfl
      rw [hstep]
      exact ih (fun y hy => h y (List.mem_cons_of_mem x hy))

/-- The float sum of a nonempty list of `inf` values is `inf`. -/
theorem RE.sumL_posinf {K : Type} [LinearOrderedField K]
    (l : List (RE K)) (hne : l ≠ []) (h : ∀ x ∈ l, x = RE.posinf) :
    RE.sumL l = RE.posinf := by
  cases l with
  | nil => exact absurd rfl hne
  | cons x t =>
      rw [RE.sumL, List.foldl_cons, h x (List.mem_cons_self x t)]
      have hstep : RE.add (RE.fin (0 : K)) RE.posinf = RE.posinf := rfl
      rw [hstep]
      exact RE.foldl_add_posinf t (fun y hy => h y (List.mem_cons_of_mem x hy))

/-- Broadcasting a nonempty positive noise array keeps every entry
positive. -/
theorem bcast_pos {K : Type} [LinearOrderedField K]
    (sd : List K) (n : Nat) (hne : sd ≠ [])
    (hpos : ∀ s ∈ sd, 0 < s) : ∀ s ∈ bcast sd n, 0 < s := by
  intro s hs
  unfold bcast at hs
  split at hs
  · have heq := List.eq_of_mem_replicate hs
    subst heq
    cases sd with
    | nil => exact absurd rfl hne
    | cons a t => exact hpos _ (List.mem_cons_self a t)
  · exact hpos s hs

/-- Broadcasting a nonempty noise array against nonempty data is
nonempty. -/
theorem bcast_ne_nil {K : Type} [LinearOrderedField K]
    (sd : List K) (n : Nat) (hne : sd ≠ []) (hn : 0 < n) :
    bcast sd n ≠ [] := by
  unfold bcast
  split
  · intro h
    have := congrArg List.length h
    simp at this
    omega
  · exact hne

/-- C4 (amended): whenever the external solver signals `MultisphereFailure`
or `InvalidScatterer`, `_fields` and `AlphaModel._forward` return the
`-inf` sentinel instead of propagating, for every input; `_lnlike` then
also returns `-inf` provided the data array is nonempty and the resolved
noise sd array is nonempty, positive, and broadcastable (size 1 or the
data's size).  (On empty data `_lnlike` instead returns `0`; see the
counterexample.) -/
theorem C4_amended_scattering_failure_neginf
    {K S : Type} [LinearOrderedField K]
    (calcField :
      List K → S → String → List (String × Val K) →
        Except ScatteringError (List K))
    (calcHolo :
      List K → S → String → Val K → List (String × Val K) →
        Except ScatteringError (List K))
    (os : List (String × Val K) → List K → List (String × Val K) × S)
    (gp : List (String × Val K) → Val K)
    (mf : MathFns K)
    (rn : List (String × Val K) → List K → List K)
    (m : NoiseModel K S) (am : AlphaModel K S)
    (pars : List (String × Val K)) (schema data : List K)
    (e1 e2 : ScatteringError)
    (hcf : calcField schema (os pars schema).2 m.theory
        (os pars schema).1 = Except.error e1)
    (hch : calcHolo data (os pars data).2 am.theory (gp pars)
        (os pars data).1 = Except.error e2)
    (hdata : data ≠ [])
    (hnne : rn pars data ≠ [])
    (hnpos : ∀ s ∈ rn pars data, 0 < s)
    (_hbl : (rn pars data).length = 1 ∨
        (rn pars data).length = data.length) :
    m._fields calcField os pars schema = FwdRes.neginfF ∧
    am._forward calcHolo os gp pars data none = FwdRes.neginfF ∧
    NoiseModel._lnlike mf rn
        (fun p d => am._forward calcHolo os gp p d none) pars data =
      RE.neginf := by
  have h1 : m._fields calcField os pars schema = FwdRes.neginfF := by
    simp [NoiseModel._fields, hcf, FwdRes.ofExcept]
  have h2 : am._forward calcHolo os gp pars data none = FwdRes.neginfF := by
    simp [AlphaModel._forward, hch, FwdRes.ofExcept]
  refine ⟨h1, h2, ?_⟩
  have hd : 0 < data.length := List.length_pos.mpr hdata
  have key : RE.sumL (((List.replicate data.length RE.neginf).zip
      (data.zip (bcast (rn pars data) data.length))).map
        (fun t => RE.div
          (RE.mul (RE.sub t.1 (RE.fin t.2.1)) (RE.sub t.1 (RE.fin t.2.1)))
          (RE.fin (2 * t.2.2 ^ 2)))) = RE.posinf := by
    apply RE.sumL_posinf
    · apply List.length_pos.mp
      rw [List.length_map, List.length_zip, List.length_replicate,
        List.length_zip]
      have hb : 0 < (bcast (rn pars data) data.length).length :=
        List.length_pos.mpr (bcast_ne_nil _ _ hnne hd)
      omega
    · intro x hx
      obtain ⟨t, ht, rfl⟩ := List.mem_map.mp hx
      obtain ⟨ht1, ht2⟩ := List.of_mem_zip ht
      have hx1 : t.1 = RE.neginf := List.eq_of_mem_replicate ht1
      have hx22 : 0 < t.2.2 :=
        bcast_pos _ _ hnne hnpos _ (List.of_mem_zip ht2).2
      rw [hx1, RE.sub_neginf_fin, RE.mul_neginf_neginf,
        RE.div_posinf_fin _ (by positivity)]
  simp only [NoiseModel._lnlike, h2, fwdElems]
  rw [key, RE.sub_fin_posinf]

/-- Witness for the amended C4 at concrete failing solver stubs and
nonempty data. -/
theorem C4_amended_scattering_failure_neginf_witness :
    NoiseModel._fields wCalcFieldErr wOS wModelOK [] [1] =
      FwdRes.neginfF ∧
    AlphaModel._forward wCalcHoloErr wOS wGP wAM [] [2] none =
      FwdRes.neginfF ∧
    NoiseModel._lnlike wMF wRN1
        (fun p d => AlphaModel._forward wCalcHoloErr wOS wGP wAM p d none)
        [] [2] =
      RE.neginf :=
  C4_amended_scattering_failure_neginf wCalcFieldErr wCalcHoloErr wOS wGP
    wMF wRN1 wModelOK wAM [] [1] [2] ScatteringError.invalidScatterer
    ScatteringError.multisphereFailure rfl rfl (by decide) (by decide)
    (by decide) (Or.inl rfl)

/-- Counterexample to C4 as stated: on an empty data array the solver
signals `MultisphereFailure`, `_forward` duly returns the `-inf` sentinel,
but `_lnlike` evaluates to `0`, not negative infinity (all three numpy
terms of the formula are empty sums or multiplied by `N = 0`). -/
theorem C4_counterexample_empty_data :
    wCalcHoloErr [] (wOS [] []).2 wAM.theory (wGP []) (wOS [] []).1 =
      Except.error ScatteringError.multisphereFailure ∧
    AlphaModel._forward wCalcHoloErr wOS wGP wAM [] [] none =
      FwdRes.neginfF ∧
    NoiseModel._lnlike wMF wRN1 wFwdErr [] [] = RE.fin 0 ∧
    NoiseModel._lnlike wMF wRN1 wFwdErr [] [] ≠ RE.neginf := by
  have hval : NoiseModel._lnlike wMF wRN1 wFwdErr [] [] = RE.fin 0 := by
    norm_num [NoiseModel._lnlike, wFwdErr, AlphaModel._forward, wOS, wGP,
      wCalcHoloErr, FwdRes.ofExcept, fwdElems, RE.sumL, meanK, wRN1, wMF,
      bcast, RE.sub, RE.neg, RE.add]
  refine ⟨rfl, rfl, hval, by rw [hval]; intro h; exact RE.noConfusion h⟩

/-- C9 (code bug): two models constructed without an explicit `constraints`
argument receive the same default list object, and an in-place append seen
through the first instance's reference is visible through the second
instance's reference — the instances do not own independent constraint
lists, contrary to the intended per-instance design. -/
theorem C9_shared_default_constraint_list :
    (constructConstraintsRef (initialStore Bool) none).1 =
      (constructConstraintsRef
          ((constructConstraintsRef (initialStore Bool) none).2) none).1 ∧
    (appendConstraint
        ((constructConstraintsRef
            ((constructConstraintsRef (initialStore Bool) none).2) none).2)
        ((constructConstraintsRef (initialStore Bool) none).1)
        wFailCon).heap
      ((constructConstraintsRef
          ((constructConstraintsRef (initialStore Bool) none).2) none).1) =
      [wFailCon] :=
  ⟨rfl, rfl⟩
